import Mathlib

/-!
# Structured logger of `pkg/log/logger.go`

A shallow embedding of the package `log` (file `pkg/log/logger.go`): level
selection from the environment (`getLogLevel`), the choice of the two log
files (`getLogWriter`), the construction of the three zap cores and of their
tee (`NewZapLogger`, `NewLogger`), the key/value packing and dispatch of
`ZapLogger.Log`, and the one-shot customisation `CustomDefaultLogger`.

The libraries the package calls (`os`, `strings`, `path`, `fmt`, `zap`,
`zapcore`, `lumberjack`, `sync`) are modelled by the part of their documented
behaviour that the package relies on; each such definition says which library
function it stands for.
-/

namespace PkgLog

/-! ## Standard library: `os`, `strings`, `path` -/

/-- The process environment as seen through `os.Getenv`: a variable that is
not set reads as the empty string. -/
abbrev Environ := String → String

/-- The byte test `c < utf8.RuneSelf` of `strings.ToUpper`. -/
def isASCII (c : Char) : Bool := c.toNat < 128

/-- The ASCII branch of `strings.ToUpper`: `if 'a' <= c && c <= 'z' then c -= 'a' - 'A'`. -/
def asciiToUpper (c : Char) : Char :=
  if 97 ≤ c.toNat ∧ c.toNat ≤ 122 then Char.ofNat (c.toNat - 32) else c

/-- Go `strings.ToUpper`: a string of ASCII bytes only is upper-cased byte by
byte; any other string is mapped rune by rune through `unicode.ToUpper`, whose
table is the parameter `unicodeToUpper`. -/
def stringsToUpper (unicodeToUpper : Char → Char) (s : String) : String :=
  if s.data.all isASCII then String.mk (s.data.map asciiToUpper)
  else String.mk (s.data.map unicodeToUpper)

/-- Splits a path at every slash; the pieces are the path elements, empty
pieces standing for leading, trailing and repeated slashes. -/
def splitSlash : List Char → List (List Char)
  | [] => [[]]
  | c :: cs =>
    if c = Char.ofNat 47 then [] :: splitSlash cs
    else
      match splitSlash cs with
      | [] => [[c]]
      | h :: t => (c :: h) :: t

/-- One path element of `path.Clean`, against the elements kept so far (last
kept element first): empty and `.` elements are dropped, `..` removes the
element before it when there is one to remove, is dropped at the root of a
rooted path and is kept otherwise. -/
def cleanStep (rooted : Bool) (kept : List (List Char)) (elem : List Char) : List (List Char) :=
  if elem = [] ∨ elem = ".".data then kept
  else if elem = "..".data then
    match kept with
    | [] => if rooted then [] else [elem]
    | top :: rest => if top = "..".data then elem :: kept else rest
  else elem :: kept

/-- Go `path.Clean`: the shortest path equivalent to `p` by purely lexical
processing; the empty path and a path that cleans to nothing give `.`. -/
def pathClean (p : String) : String :=
  if p = "" then "."
  else
    let rooted := p.data.head? = some (Char.ofNat 47)
    let kept := (splitSlash p.data).foldl (cleanStep rooted) []
    let body := String.intercalate "/" (kept.reverse.map String.mk)
    let out := (if rooted then "/" else "") ++ body
    if out = "" then "." else out

/-- Go `path.Join` of two elements: empty elements are ignored, the others
are joined by a slash and the result is cleaned; two empty elements give the
empty string. -/
def pathJoin (a b : String) : String :=
  if a = "" ∧ b = "" then ""
  else if a = "" then pathClean b
  else pathClean (a ++ "/" ++ b)


/-! ## `zapcore` levels -/

namespace zapcore

/-- The constants of `zapcore.Level`, `DebugLevel = -1` up to `FatalLevel = 5`. -/
inductive Level where
  | DebugLevel
  | InfoLevel
  | WarnLevel
  | ErrorLevel
  | DPanicLevel
  | PanicLevel
  | FatalLevel
  deriving DecidableEq, Repr

/-- Numeric value of a `zapcore.Level` constant. -/
def Level.toInt : Level → Int
  | .DebugLevel => -1
  | .InfoLevel => 0
  | .WarnLevel => 1
  | .ErrorLevel => 2
  | .DPanicLevel => 3
  | .PanicLevel => 4
  | .FatalLevel => 5

/-- The level enabler `func (l Level) Enabled(lvl Level) bool { return lvl >= l }`. -/
def Level.Enabled (l lvl : Level) : Bool := decide (l.toInt ≤ lvl.toInt)

end zapcore

/-! ## Severities of the package -/

/-- Modelled from the spec: the declaration of the package type `Level` and of
its constants `LevelDebug` .. `LevelFatal` is not part of `logger.go`; the data
model gives the ordered enumeration Debug, Info, Warn, Error, Fatal. -/
inductive Level where
  | LevelDebug
  | LevelInfo
  | LevelWarn
  | LevelError
  | LevelFatal
  deriving DecidableEq, Repr

/-- Modelled from the spec: position of a severity in the total order
Debug < Info < Warn < Error < Fatal. -/
def Level.rank : Level → Nat
  | .LevelDebug => 0
  | .LevelInfo => 1
  | .LevelWarn => 2
  | .LevelError => 3
  | .LevelFatal => 4

/-- The zap method that the `switch level` of `ZapLogger.Log` selects
(`l.log.Debug`, `Info`, `Warn`, `Error`, `Fatal`), as the level of the entry
that method issues. -/
def Level.zapLevel : Level → zapcore.Level
  | .LevelDebug => .DebugLevel
  | .LevelInfo => .InfoLevel
  | .LevelWarn => .WarnLevel
  | .LevelError => .ErrorLevel
  | .LevelFatal => .FatalLevel

/-! ## `getLogLevel` -/

/-- Source `getLogLevel`: reads `LOG_LEVEL`, upper-cases it and switches on the
result; the returned `zap.AtomicLevel` is represented by the level it holds. -/
def getLogLevel (unicodeToUpper : Char → Char) (env : Environ) : zapcore.Level :=
  let level := env "LOG_LEVEL"
  let level := stringsToUpper unicodeToUpper level
  if level = "DEBUG" then zapcore.Level.DebugLevel
  else if level = "WARN" then zapcore.Level.WarnLevel
  else if level = "ERROR" then zapcore.Level.ErrorLevel
  else if level = "INFO" then zapcore.Level.InfoLevel
  else zapcore.Level.DebugLevel

/-- Case-insensitive equality of two strings, as the spec words it: the two
strings agree once both are upper-cased. -/
def equalIgnoringCase (unicodeToUpper : Char → Char) (a b : String) : Bool :=
  decide (stringsToUpper unicodeToUpper a = stringsToUpper unicodeToUpper b)

/-! ## `lumberjack`, `zapcore` cores and the `zap` logger -/

/-- Source constant `MaxUint = ^uint(0)`, for a `uint` of `bits` bits. -/
def MaxUint (bits : Nat) : Nat := 2 ^ bits - 1

/-- Source constant `MaxInt = int(MaxUint >> 1)`. -/
def MaxInt (bits : Nat) : Nat := MaxUint bits / 2

namespace lumberjack

/-- The fields of `lumberjack.Logger` that `getLogWriter` sets. -/
structure Logger where
  Filename : String
  MaxSize : Nat
  MaxBackups : Nat
  MaxAge : Nat
  LocalTime : Bool
  Compress : Bool
  deriving DecidableEq, Repr

end lumberjack

namespace zapcore

/-- The level encoders of `zapcore`; the package uses `CapitalLevelEncoder`. -/
inductive LevelEncoder where
  | LowercaseLevelEncoder
  | CapitalLevelEncoder
  deriving DecidableEq, Repr

/-- The fields of `zapcore.EncoderConfig` that `NewLogger` sets. -/
structure EncoderConfig where
  LevelKey : String
  LineEnding : String
  EncodeLevel : LevelEncoder
  deriving DecidableEq, Repr

/-- An encoder: `zapcore.NewConsoleEncoder cfg` or `zapcore.NewJSONEncoder cfg`. -/
inductive Encoder where
  | NewConsoleEncoder (cfg : EncoderConfig)
  | NewJSONEncoder (cfg : EncoderConfig)
  deriving DecidableEq, Repr

/-- A write syncer: `zapcore.AddSync(os.Stdout)` or `zapcore.AddSync` of a
lumberjack logger. `NewMultiWriteSyncer` of a single syncer is that syncer. -/
inductive WriteSyncer where
  | Stdout
  | File (l : lumberjack.Logger)
  deriving DecidableEq, Repr

/-- The core `zapcore.NewCore(enc, ws, enab)`: the sink made of an encoder, a
destination and a level enabler. -/
structure Core where
  enc : Encoder
  out : WriteSyncer
  enab : Level
  deriving DecidableEq, Repr

/-- A field `zap.Any(key, value)`. -/
structure Field (α : Type) where
  Key : String
  Value : α
  deriving DecidableEq, Repr

/-- A log entry with its fields, as handed to the cores by one logger call. -/
structure Entry (α : Type) where
  Level : Level
  Message : String
  Fields : List (Field α)
  deriving DecidableEq, Repr

/-- Source `ioCore.Check`: a core takes an entry when its enabler accepts the
level of the entry. -/
def Core.Enabled (c : Core) (lvl : Level) : Bool := c.enab.Enabled lvl

end zapcore

namespace zap

/-- A `zap.Logger` over the tee `zapcore.NewTee(cores...)`. The only option the
package passes, `zap.AddStacktrace`, adds a stack trace to the encoded entry
and is not represented. -/
structure Logger where
  cores : List zapcore.Core
  deriving DecidableEq, Repr

/-- What one call of a logging method does: the entries written, each with the
core that wrote it, in tee order, and whether the call ended the process. -/
structure Effect (α : Type) where
  writes : List (zapcore.Core × zapcore.Entry α)
  exited : Bool

/-- The common body of `Logger.Debug`, `Info`, `Warn`, `Error` and `Fatal`:
the tee hands the entry to every core whose enabler accepts its level, and a
`FatalLevel` entry is followed by `os.Exit(1)` once the cores have written. -/
def Logger.logAt {α : Type} (log : Logger) (lvl : zapcore.Level) (msg : String)
    (fields : List (zapcore.Field α)) : Effect α :=
  { writes := (log.cores.filter (fun c => c.Enabled lvl)).map
      (fun c => (c, { Level := lvl, Message := msg, Fields := fields }))
    exited := decide (lvl = zapcore.Level.FatalLevel) }

/-- Method `Logger.Debug`. -/
def Logger.Debug {α : Type} (log : Logger) (msg : String) (fields : List (zapcore.Field α)) :
    Effect α := log.logAt zapcore.Level.DebugLevel msg fields

/-- Method `Logger.Info`. -/
def Logger.Info {α : Type} (log : Logger) (msg : String) (fields : List (zapcore.Field α)) :
    Effect α := log.logAt zapcore.Level.InfoLevel msg fields

/-- Method `Logger.Warn`. -/
def Logger.Warn {α : Type} (log : Logger) (msg : String) (fields : List (zapcore.Field α)) :
    Effect α := log.logAt zapcore.Level.WarnLevel msg fields

/-- Method `Logger.Error`. -/
def Logger.Error {α : Type} (log : Logger) (msg : String) (fields : List (zapcore.Field α)) :
    Effect α := log.logAt zapcore.Level.ErrorLevel msg fields

/-- Method `Logger.Fatal`. -/
def Logger.Fatal {α : Type} (log : Logger) (msg : String) (fields : List (zapcore.Field α)) :
    Effect α := log.logAt zapcore.Level.FatalLevel msg fields

end zap

/-! ## `getLogWriter`, `NewZapLogger`, `NewLogger` -/

/-- Source `getLogWriter`: the lumberjack logger for the error file when
`level` is `LevelError`, for the primary file otherwise, in the directory
`logPath`, or `./logs/` when `logPath` is empty. The returned write syncer is
`zapcore.AddSync` of the returned logger. `MaxBackups` is `MaxInt` for the
64-bit `uint`. -/
def getLogWriter (level : Level) (logPath : String) : lumberjack.Logger :=
  let defaultPath := if logPath ≠ "" then logPath else "./logs/"
  let filename :=
    if level = Level.LevelError then pathJoin defaultPath ("log" ++ "_json_err.log")
    else pathJoin defaultPath ("log" ++ "_json.log")
  { Filename := filename
    MaxSize := 100
    MaxBackups := MaxInt 64
    MaxAge := 3
    LocalTime := true
    Compress := true }

/-- Source `ZapLogger`; the field `Sync` is the `Sync` method of `log`. -/
structure ZapLogger where
  log : zap.Logger
  deriving DecidableEq, Repr

/-- The local `coreConsole` of `NewZapLogger`. -/
def coreConsole (encoder : zapcore.EncoderConfig) (level : zapcore.Level) : zapcore.Core :=
  { enc := zapcore.Encoder.NewConsoleEncoder encoder
    out := zapcore.WriteSyncer.Stdout
    enab := level }

/-- The local `coreFile` of `NewZapLogger`, on the writer
`getLogWriter(LevelInfo, logPath)`. -/
def coreFile (encoder : zapcore.EncoderConfig) (level : zapcore.Level) (logPath : String) :
    zapcore.Core :=
  { enc := zapcore.Encoder.NewJSONEncoder encoder
    out := zapcore.WriteSyncer.File (getLogWriter Level.LevelInfo logPath)
    enab := level }

/-- The local `coreErr` of `NewZapLogger`, on the writer
`getLogWriter(LevelError, logPath)`, enabled from `zapcore.ErrorLevel`. -/
def coreErr (encoder : zapcore.EncoderConfig) (logPath : String) : zapcore.Core :=
  { enc := zapcore.Encoder.NewJSONEncoder encoder
    out := zapcore.WriteSyncer.File (getLogWriter Level.LevelError logPath)
    enab := zapcore.Level.ErrorLevel }

/-- Source `NewZapLogger`: the tee of the file core and the error core, with
the console core in front unless `LOG_STDOUT_OFF` is non-empty. The daily cron
job that rotates the two files runs beside the logger and is not part of the
returned value. -/
def NewZapLogger (env : Environ) (encoder : zapcore.EncoderConfig) (level : zapcore.Level)
    (logPath : String) : ZapLogger :=
  if env "LOG_STDOUT_OFF" ≠ "" then
    { log := { cores := [coreFile encoder level logPath, coreErr encoder logPath] } }
  else
    { log := { cores := [coreConsole encoder level, coreFile encoder level logPath,
        coreErr encoder logPath] } }

/-- The encoder configuration of `NewLogger`; `zapcore.DefaultLineEnding` is
the newline. -/
def encoderConfig : zapcore.EncoderConfig :=
  { LevelKey := "log_level"
    LineEnding := "\n"
    EncodeLevel := zapcore.LevelEncoder.CapitalLevelEncoder }

/-- Source `NewLogger`. -/
def NewLogger (unicodeToUpper : Char → Char) (env : Environ) (logPath : String) : ZapLogger :=
  NewZapLogger env encoderConfig (getLogLevel unicodeToUpper env) logPath

/-! ## `ZapLogger.Log` -/

/-- How a call of `Log` ends: it returns its error result (`none` for `nil`),
the process exits with a status, or the run-time panics. -/
inductive Outcome where
  | returned (err : Option String)
  | exited (code : Nat)
  | panicked
  deriving DecidableEq, Repr

/-- Result of a call of `Log`: what the cores wrote and how the call ended. -/
structure LogResult (α : Type) where
  writes : List (zapcore.Core × zapcore.Entry α)
  outcome : Outcome

/-- The loop `for i := 0; i < len(keyvals); i += 2` of `Log`, appending
`zap.Any(fmt.Sprint(keyvals[i]), keyvals[i+1])`; `sprint` is `fmt.Sprint` on
one value. A last key without a value is the index `keyvals[i+1]` out of
range, `none`. -/
def packFields {α : Type} (sprint : α → String) : List α → Option (List (zapcore.Field α))
  | [] => some []
  | [_] => none
  | k :: v :: rest =>
    (packFields sprint rest).map (fun data => data.cons { Key := sprint k, Value := v })

/-- The text `fmt.Sprint("Keyvalues must appear in pairs: ", keyvals)`: the
first operand is a string, so no blank is put between the two, and the slice
follows as `fmt` renders it; `sprintSlice` is that rendering, which need not
be built from `fmt.Sprint` of the single elements. -/
def usageMessage {α : Type} (sprintSlice : List α → String) (keyvals : List α) : String :=
  "Keyvalues must appear in pairs: " ++ sprintSlice keyvals

/-- The statement sequence "call a zap method, then `return nil`". -/
def thenReturnNil {α : Type} (e : zap.Effect α) : LogResult α :=
  { writes := e.writes
    outcome := if e.exited then Outcome.exited 1 else Outcome.returned none }

/-- Source `ZapLogger.Log`. -/
def ZapLogger.Log {α : Type} (sprint : α → String) (sprintSlice : List α → String)
    (l : ZapLogger) (level : Level) (keyvals : List α) : LogResult α :=
  if keyvals.length = 0 ∨ keyvals.length % 2 ≠ 0 then
    thenReturnNil (l.log.Warn (usageMessage sprintSlice keyvals) [])
  else
    match packFields sprint keyvals with
    | none => { writes := [], outcome := Outcome.panicked }
    | some data =>
      match level with
      | Level.LevelDebug => thenReturnNil (l.log.Debug "" data)
      | Level.LevelInfo => thenReturnNil (l.log.Info "" data)
      | Level.LevelWarn => thenReturnNil (l.log.Warn "" data)
      | Level.LevelError => thenReturnNil (l.log.Error "" data)
      | Level.LevelFatal => thenReturnNil (l.log.Fatal "" data)

/-- A record reached the sink of core `c`: `c` wrote an entry. -/
def wroteTo {α : Type} (writes : List (zapcore.Core × zapcore.Entry α)) (c : zapcore.Core) :
    Prop :=
  ∃ ent, (c, ent) ∈ writes

/-! ## The default logger and `CustomDefaultLogger` -/

/-- Modelled from the spec: the values bound to the static context fields. The
declarations of `DefaultTimestamp` and `DefaultCaller` are not part of
`logger.go`; the spec lists them as the timestamp and caller inclusion flags
beside the string-valued identity fields. -/
inductive ContextValue where
  | DefaultTimestamp
  | DefaultCaller
  | str (s : String)
  deriving DecidableEq, Repr

/-- Modelled from the spec: `With` and `NewHelper` are not part of `logger.go`;
the facade they build is a logger together with the static context fields
attached to every record, in the order given. -/
structure Helper where
  logger : ZapLogger
  context : List (String × ContextValue)
  deriving DecidableEq, Repr

/-- Modelled from the spec: `NewHelper(With(l, kv...))`, see `Helper`. -/
def NewHelperWith (l : ZapLogger) (kv : List (String × ContextValue)) : Helper :=
  { logger := l, context := kv }

/-- The value a facade binds to a static context field, if it has the field. -/
def Helper.field (h : Helper) (key : String) : Option ContextValue :=
  (h.context.find? (fun kv => kv.1 = key)).map Prod.snd

/-- The package variables `DefaultLogger` and `once`; the `sync.Once` is
represented by its done flag. -/
structure Globals where
  DefaultLogger : Helper
  once : Bool
  deriving DecidableEq, Repr

/-- Package initialisation: the `var` block of `logger.go`, evaluated in the
environment `env` of the process start. -/
def initGlobals (unicodeToUpper : Char → Char) (env : Environ) : Globals :=
  { DefaultLogger := NewHelperWith (NewLogger unicodeToUpper env "")
      [("timestamp", ContextValue.DefaultTimestamp),
       ("caller", ContextValue.DefaultCaller),
       ("service.id", ContextValue.str ""),
       ("app_name", ContextValue.str ""),
       ("service.version", ContextValue.str "")]
    once := false }

/-- Source `CustomDefaultLogger`, called in the environment `env` on the
package variables `g`: `once.Do` runs the function only while the done flag is
unset, and sets it. -/
def CustomDefaultLogger (unicodeToUpper : Char → Char) (env : Environ)
    (logPath id appName version module : String) (g : Globals) : Globals :=
  if g.once then g
  else
    { DefaultLogger := NewHelperWith (NewLogger unicodeToUpper env logPath)
        [("timestamp", ContextValue.DefaultTimestamp),
         ("caller", ContextValue.DefaultCaller),
         ("service.id", ContextValue.str id),
         ("app_name", ContextValue.str appName),
         ("service.version", ContextValue.str version),
         ("module", ContextValue.str module)]
      once := true }

/-! ## Concrete environments -/

/-- The environment with no variable set. -/
def emptyEnv : Environ := fun _ => ""

/-- The environment in which only `LOG_STDOUT_OFF` is set, to `1`. -/
def stdoutOffEnv : Environ := fun k => if k = "LOG_STDOUT_OFF" then "1" else ""

/-- The environment in which only `LOG_LEVEL` is set, to `v`. -/
def logLevelEnv (v : String) : Environ := fun k => if k = "LOG_LEVEL" then v else ""

/-- The environment `env` with `LOG_STDOUT_OFF` cleared. -/
def stdoutOn (env : Environ) : Environ := fun k => if k = "LOG_STDOUT_OFF" then "" else env k

/-- A `unicode.ToUpper` table that covers the ASCII letters only, for concrete
runs: `strings.ToUpper` consults the table on strings with a non-ASCII rune
only. -/
def asciiOnlyToUpper : Char → Char := asciiToUpper

/-- The rendering by `fmt` of a slice of strings: the elements between
brackets, separated by blanks. -/
def sprintStrings (keyvals : List String) : String :=
  "[" ++ String.intercalate " " keyvals ++ "]"

/-- The record `Log` builds from well-formed `keyvals` at severity `level`:
the entry of the selected zap method, with the empty message. -/
def recordOf {α : Type} (level : Level) (data : List (zapcore.Field α)) : zapcore.Entry α :=
  { Level := level.zapLevel, Message := "", Fields := data }

/-- The usage warning `Log` issues for malformed `keyvals`. -/
def usageWarning {α : Type} (sprintSlice : List α → String) (keyvals : List α) :
    zapcore.Entry α :=
  { Level := zapcore.Level.WarnLevel, Message := usageMessage sprintSlice keyvals, Fields := [] }

/-- The entry `ent` handed to every core of `log` that accepts its level. -/
def deliveredTo {α : Type} (log : zap.Logger) (ent : zapcore.Entry α) :
    List (zapcore.Core × zapcore.Entry α) :=
  (log.cores.filter (fun c => c.Enabled ent.Level)).map (fun c => (c, ent))

/-! ## Lemmas -/

theorem wroteTo_logAt {α : Type} (log : zap.Logger) (lvl : zapcore.Level) (msg : String)
    (fields : List (zapcore.Field α)) (c : zapcore.Core) :
    wroteTo (log.logAt lvl msg fields).writes c ↔ c ∈ log.cores ∧ c.Enabled lvl = true := by
  unfold wroteTo zap.Logger.logAt
  constructor
  · rintro ⟨ent, h⟩
    simp only [List.mem_map, List.mem_filter] at h
    obtain ⟨c1, ⟨hc, he⟩, heq⟩ := h
    have : c1 = c := congrArg Prod.fst heq
    subst this
    exact ⟨hc, he⟩
  · rintro ⟨hc, he⟩
    refine ⟨{ Level := lvl, Message := msg, Fields := fields }, ?_⟩
    simp only [List.mem_map, List.mem_filter]
    exact ⟨c, ⟨hc, he⟩, rfl⟩

theorem enabled_zapLevel (M L : Level) :
    M.zapLevel.Enabled L.zapLevel = true ↔ M.rank ≤ L.rank := by
  cases M <;> cases L <;> decide

theorem getLogLevel_range (u : Char → Char) (env : Environ) :
    getLogLevel u env = zapcore.Level.DebugLevel ∨ getLogLevel u env = zapcore.Level.InfoLevel ∨
    getLogLevel u env = zapcore.Level.WarnLevel ∨ getLogLevel u env = zapcore.Level.ErrorLevel := by
  unfold getLogLevel
  simp only
  split_ifs <;> simp

theorem getLogLevel_severity (u : Char → Char) (env : Environ) :
    ∃ M : Level, M.zapLevel = getLogLevel u env ∧ M.rank ≤ Level.LevelError.rank := by
  rcases getLogLevel_range u env with h | h | h | h
  · exact ⟨Level.LevelDebug, by rw [h]; rfl, by decide⟩
  · exact ⟨Level.LevelInfo, by rw [h]; rfl, by decide⟩
  · exact ⟨Level.LevelWarn, by rw [h]; rfl, by decide⟩
  · exact ⟨Level.LevelError, by rw [h]; rfl, by decide⟩

theorem coreFile_mem (env : Environ) (enc : zapcore.EncoderConfig) (level : zapcore.Level)
    (logPath : String) :
    coreFile enc level logPath ∈ (NewZapLogger env enc level logPath).log.cores := by
  unfold NewZapLogger
  split_ifs <;> simp

theorem coreErr_mem (env : Environ) (enc : zapcore.EncoderConfig) (level : zapcore.Level)
    (logPath : String) :
    coreErr enc logPath ∈ (NewZapLogger env enc level logPath).log.cores := by
  unfold NewZapLogger
  split_ifs <;> simp

theorem coreConsole_mem (env : Environ) (enc : zapcore.EncoderConfig) (level : zapcore.Level)
    (logPath : String) :
    coreConsole enc level ∈ (NewZapLogger env enc level logPath).log.cores ↔
      env "LOG_STDOUT_OFF" = "" := by
  unfold NewZapLogger
  split_ifs with h
  · simp [coreConsole, coreFile, coreErr, h]
  · simp only [ne_eq, not_not] at h
    simp [h]

theorem packFields_even {α : Type} (sprint : α → String) :
    ∀ (n : Nat) (keyvals : List α), keyvals.length = 2 * n →
      ∃ data, packFields sprint keyvals = some data ∧ data.length = n ∧
        ∀ i, i < n → ∃ k v, keyvals[2 * i]? = some k ∧ keyvals[2 * i + 1]? = some v ∧
          data[i]? = some { Key := sprint k, Value := v } := by
  intro n
  induction n with
  | zero =>
    intro keyvals h
    have : keyvals = [] := List.length_eq_zero.mp (by simpa using h)
    subst this
    exact ⟨[], rfl, rfl, fun i hi => absurd hi (Nat.not_lt_zero i)⟩
  | succ n ih =>
    intro keyvals h
    match keyvals, h with
    | k :: v :: rest, h =>
      have hrest : rest.length = 2 * n := by
        simp only [List.length_cons] at h
        omega
      obtain ⟨data, hd, hlen, hidx⟩ := ih rest hrest
      refine ⟨{ Key := sprint k, Value := v } :: data, ?_, ?_, ?_⟩
      · simp [packFields, hd]
      · simp [hlen]
      · intro i hi
        cases i with
        | zero => exact ⟨k, v, by simp, by simp, by simp⟩
        | succ j =>
          obtain ⟨k1, v1, hk, hv, hf⟩ := hidx j (by omega)
          refine ⟨k1, v1, ?_, ?_, ?_⟩
          · have : 2 * (j + 1) = (2 * j) + 1 + 1 := by ring
            rw [this]
            simpa using hk
          · have : 2 * (j + 1) + 1 = (2 * j + 1) + 1 + 1 := by ring
            rw [this]
            simpa using hv
          · simpa using hf
    | [], h => simp at h
    | [_], h => simp at h; omega

theorem logAt_eq_deliveredTo {α : Type} (log : zap.Logger) (lvl : zapcore.Level) (msg : String)
    (fields : List (zapcore.Field α)) :
    (log.logAt lvl msg fields).writes =
      deliveredTo log { Level := lvl, Message := msg, Fields := fields } := rfl

theorem Log_of_malformed {α : Type} (sprint : α → String) (sprintSlice : List α → String) (l : ZapLogger) (level : Level)
    (keyvals : List α) (h : keyvals = [] ∨ keyvals.length % 2 = 1) :
    ZapLogger.Log sprint sprintSlice l level keyvals =
      { writes := deliveredTo l.log (usageWarning sprintSlice keyvals),
        outcome := Outcome.returned none } := by
  have hc : keyvals.length = 0 ∨ keyvals.length % 2 ≠ 0 := by
    rcases h with h | h
    · left; simp [h]
    · right; omega
  unfold ZapLogger.Log
  rw [if_pos hc]
  rfl

theorem Log_of_wellformed {α : Type} (sprint : α → String) (sprintSlice : List α → String) (l : ZapLogger) (level : Level)
    (keyvals : List α) (hne : keyvals ≠ []) (heven : keyvals.length % 2 = 0) :
    ∃ data, packFields sprint keyvals = some data ∧
      ZapLogger.Log sprint sprintSlice l level keyvals =
        { writes := deliveredTo l.log (recordOf level data),
          outcome := if level = Level.LevelFatal then Outcome.exited 1
            else Outcome.returned none } := by
  obtain ⟨data, hd, -, -⟩ := packFields_even sprint (keyvals.length / 2) keyvals (by omega)
  refine ⟨data, hd, ?_⟩
  have hc : ¬ (keyvals.length = 0 ∨ keyvals.length % 2 ≠ 0) := by
    rintro (h | h)
    · exact hne (List.length_eq_zero.mp h)
    · exact h heven
  unfold ZapLogger.Log
  rw [if_neg hc, hd]
  cases level <;> rfl

theorem wroteTo_deliveredTo {α : Type} (log : zap.Logger) (ent : zapcore.Entry α)
    (c : zapcore.Core) :
    wroteTo (deliveredTo log ent) c ↔ c ∈ log.cores ∧ c.Enabled ent.Level = true :=
  wroteTo_logAt log ent.Level ent.Message ent.Fields c

/-! ## Malformed and well-formed calls of `Log` -/

/-- C3: for every non-empty `keyvals` of even length and every severity, `Log`
builds one record, at the level of the severity passed in, whose fields are
`len(keyvals)/2` in number, field `i` having the key `fmt.Sprint(keyvals[2i])`
and the value `keyvals[2i+1]`, and hands that one record to every core that
accepts its level. -/
theorem Log_wellformed_record {α : Type} (sprint : α → String) (sprintSlice : List α → String) (l : ZapLogger) (level : Level)
    (keyvals : List α) (hne : keyvals ≠ []) (heven : keyvals.length % 2 = 0) :
    ∃ data : List (zapcore.Field α),
      (ZapLogger.Log sprint sprintSlice l level keyvals).writes =
        deliveredTo l.log { Level := level.zapLevel, Message := "", Fields := data } ∧
      data.length = keyvals.length / 2 ∧
      ∀ i, i < keyvals.length / 2 →
        ∃ k v, keyvals[2 * i]? = some k ∧ keyvals[2 * i + 1]? = some v ∧
          data[i]? = some { Key := sprint k, Value := v } := by
  obtain ⟨data, hd, hlen, hidx⟩ :=
    packFields_even sprint (keyvals.length / 2) keyvals (by omega)
  obtain ⟨data1, hd1, hlog⟩ := Log_of_wellformed sprint sprintSlice l level keyvals hne heven
  have : data1 = data := Option.some.inj (hd1.symm.trans hd)
  subst this
  exact ⟨data1, by rw [hlog]; rfl, hlen, hidx⟩

/-- C3 at a concrete call: two pairs logged at Warn on the default logger. -/
theorem Log_wellformed_record_witness :
    ∃ data : List (zapcore.Field String),
      (ZapLogger.Log (fun s : String => s) sprintStrings (NewLogger asciiOnlyToUpper emptyEnv "")
          Level.LevelWarn ["retries", "3", "host", "a"]).writes =
        deliveredTo (NewLogger asciiOnlyToUpper emptyEnv "").log
          { Level := Level.LevelWarn.zapLevel, Message := "", Fields := data } ∧
      data.length = ["retries", "3", "host", "a"].length / 2 ∧
      ∀ i, i < ["retries", "3", "host", "a"].length / 2 →
        ∃ k v, ["retries", "3", "host", "a"][2 * i]? = some k ∧
          ["retries", "3", "host", "a"][2 * i + 1]? = some v ∧
          data[i]? = some { Key := (fun s : String => s) k, Value := v } :=
  Log_wellformed_record (fun s : String => s) sprintStrings (NewLogger asciiOnlyToUpper emptyEnv "")
    Level.LevelWarn ["retries", "3", "host", "a"] (by decide) (by decide)

/-- C7, as stated, fails: a `Fatal` call with empty `keyvals` takes the usage
branch and returns `nil`; so does one with a single key. -/
theorem Log_fatal_malformed_returns :
    (ZapLogger.Log (fun s : String => s) sprintStrings (NewLogger asciiOnlyToUpper emptyEnv "")
        Level.LevelFatal []).outcome = Outcome.returned none ∧
    (ZapLogger.Log (fun s : String => s) sprintStrings (NewLogger asciiOnlyToUpper emptyEnv "")
        Level.LevelFatal ["k"]).outcome = Outcome.returned none := by
  constructor <;> rfl

/-- C7, amended: `Log` ends the process exactly when the level is `Fatal` and
`keyvals` is non-empty of even length, and then the record has been handed to
the cores before the exit; in every other case, the malformed `Fatal` call
included, it returns `nil`. -/
theorem Log_outcome {α : Type} (sprint : α → String) (sprintSlice : List α → String) (l : ZapLogger) (level : Level)
    (keyvals : List α) :
    (ZapLogger.Log sprint sprintSlice l level keyvals).outcome =
      (if level = Level.LevelFatal ∧ keyvals.length ≠ 0 ∧ keyvals.length % 2 = 0
        then Outcome.exited 1 else Outcome.returned none) ∧
    ((ZapLogger.Log sprint sprintSlice l level keyvals).outcome = Outcome.exited 1 →
      ∃ data, packFields sprint keyvals = some data ∧
        (ZapLogger.Log sprint sprintSlice l level keyvals).writes =
          deliveredTo l.log (recordOf Level.LevelFatal data)) := by
  by_cases hw : keyvals.length ≠ 0 ∧ keyvals.length % 2 = 0
  · have hne : keyvals ≠ [] := fun h => hw.1 (by simp [h])
    obtain ⟨data, hd, hlog⟩ := Log_of_wellformed sprint sprintSlice l level keyvals hne hw.2
    rw [hlog]
    by_cases hf : level = Level.LevelFatal
    · subst hf
      exact ⟨by simp [hw.1, hw.2], fun _ => ⟨data, hd, rfl⟩⟩
    · exact ⟨by simp [hf], by simp [hf]⟩
  · have hm : keyvals = [] ∨ keyvals.length % 2 = 1 := by
      by_cases he : keyvals.length = 0
      · exact Or.inl (List.length_eq_zero.mp he)
      · right
        have := fun h => hw ⟨he, h⟩
        omega
    rw [Log_of_malformed sprint sprintSlice l level keyvals hm]
    refine ⟨?_, by simp⟩
    have : ¬ (level = Level.LevelFatal ∧ keyvals.length ≠ 0 ∧ keyvals.length % 2 = 0) :=
      fun h => hw h.2
    simp only [this, if_false]

/-- C7 at a concrete call: one pair logged at Fatal ends the process after the
record has been handed to the cores. -/
theorem Log_outcome_witness :
    (ZapLogger.Log (fun s : String => s) sprintStrings (NewLogger asciiOnlyToUpper emptyEnv "")
        Level.LevelFatal ["k", "v"]).outcome = Outcome.exited 1 ∧
    ∃ data, packFields (fun s : String => s) ["k", "v"] = some data ∧
      (ZapLogger.Log (fun s : String => s) sprintStrings (NewLogger asciiOnlyToUpper emptyEnv "")
          Level.LevelFatal ["k", "v"]).writes =
        deliveredTo (NewLogger asciiOnlyToUpper emptyEnv "").log
          (recordOf Level.LevelFatal data) :=
  ⟨rfl, (Log_outcome (fun s : String => s) sprintStrings (NewLogger asciiOnlyToUpper emptyEnv "")
    Level.LevelFatal ["k", "v"]).2 rfl⟩

/-! ## Level selection -/

theorem stringsToUpper_DEBUG (u : Char → Char) : stringsToUpper u "DEBUG" = "DEBUG" := by
  unfold stringsToUpper
  rw [if_pos (by decide)]
  decide

theorem stringsToUpper_INFO (u : Char → Char) : stringsToUpper u "INFO" = "INFO" := by
  unfold stringsToUpper
  rw [if_pos (by decide)]
  decide

theorem stringsToUpper_WARN (u : Char → Char) : stringsToUpper u "WARN" = "WARN" := by
  unfold stringsToUpper
  rw [if_pos (by decide)]
  decide

theorem stringsToUpper_ERROR (u : Char → Char) : stringsToUpper u "ERROR" = "ERROR" := by
  unfold stringsToUpper
  rw [if_pos (by decide)]
  decide

theorem stringsToUpper_empty (u : Char → Char) : stringsToUpper u "" = "" := by
  unfold stringsToUpper
  rw [if_pos (by decide)]
  decide

/-- C4: `getLogLevel` returns Debug, Info, Warn or Error when `LOG_LEVEL`
equals `DEBUG`, `INFO`, `WARN` or `ERROR` up to case, and Debug for every
other value, the empty value of an unset variable included. -/
theorem getLogLevel_spec (u : Char → Char) (env : Environ) :
    (equalIgnoringCase u (env "LOG_LEVEL") "DEBUG" = true →
      getLogLevel u env = zapcore.Level.DebugLevel) ∧
    (equalIgnoringCase u (env "LOG_LEVEL") "INFO" = true →
      getLogLevel u env = zapcore.Level.InfoLevel) ∧
    (equalIgnoringCase u (env "LOG_LEVEL") "WARN" = true →
      getLogLevel u env = zapcore.Level.WarnLevel) ∧
    (equalIgnoringCase u (env "LOG_LEVEL") "ERROR" = true →
      getLogLevel u env = zapcore.Level.ErrorLevel) ∧
    (equalIgnoringCase u (env "LOG_LEVEL") "DEBUG" = false →
      equalIgnoringCase u (env "LOG_LEVEL") "INFO" = false →
      equalIgnoringCase u (env "LOG_LEVEL") "WARN" = false →
      equalIgnoringCase u (env "LOG_LEVEL") "ERROR" = false →
      getLogLevel u env = zapcore.Level.DebugLevel) ∧
    (env "LOG_LEVEL" = "" → getLogLevel u env = zapcore.Level.DebugLevel) := by
  unfold equalIgnoringCase
  simp only [decide_eq_true_eq, decide_eq_false_iff_not]
  rw [stringsToUpper_DEBUG, stringsToUpper_INFO, stringsToUpper_WARN, stringsToUpper_ERROR]
  refine ⟨?_, ?_, ?_, ?_, ?_, ?_⟩
  · intro h
    simp [getLogLevel, h]
  · intro h
    simp [getLogLevel, h]
  · intro h
    simp [getLogLevel, h]
  · intro h
    simp [getLogLevel, h]
  · intro h1 h2 h3 h4
    simp [getLogLevel, h1, h2, h3, h4]
  · intro h
    simp [getLogLevel, h, stringsToUpper_empty]

/-- C4 at concrete values of `LOG_LEVEL`, one for each case. -/
theorem getLogLevel_spec_witness :
    getLogLevel asciiOnlyToUpper (logLevelEnv "debug") = zapcore.Level.DebugLevel ∧
    getLogLevel asciiOnlyToUpper (logLevelEnv "Info") = zapcore.Level.InfoLevel ∧
    getLogLevel asciiOnlyToUpper (logLevelEnv "wArN") = zapcore.Level.WarnLevel ∧
    getLogLevel asciiOnlyToUpper (logLevelEnv "error") = zapcore.Level.ErrorLevel ∧
    getLogLevel asciiOnlyToUpper (logLevelEnv "verbose") = zapcore.Level.DebugLevel ∧
    getLogLevel asciiOnlyToUpper emptyEnv = zapcore.Level.DebugLevel :=
  ⟨(getLogLevel_spec asciiOnlyToUpper (logLevelEnv "debug")).1 (by decide),
   (getLogLevel_spec asciiOnlyToUpper (logLevelEnv "Info")).2.1 (by decide),
   (getLogLevel_spec asciiOnlyToUpper (logLevelEnv "wArN")).2.2.1 (by decide),
   (getLogLevel_spec asciiOnlyToUpper (logLevelEnv "error")).2.2.2.1 (by decide),
   (getLogLevel_spec asciiOnlyToUpper (logLevelEnv "verbose")).2.2.2.2.1
     (by decide) (by decide) (by decide) (by decide),
   (getLogLevel_spec asciiOnlyToUpper emptyEnv).2.2.2.2.2 (by decide)⟩

/-! ## Sink routing -/

theorem wroteTo_Log_wellformed {α : Type} (sprint : α → String) (sprintSlice : List α → String) (l : ZapLogger) (L : Level)
    (keyvals : List α) (hne : keyvals ≠ []) (heven : keyvals.length % 2 = 0)
    (c : zapcore.Core) :
    wroteTo (ZapLogger.Log sprint sprintSlice l L keyvals).writes c ↔
      c ∈ l.log.cores ∧ c.Enabled L.zapLevel = true := by
  obtain ⟨data, -, hlog⟩ := Log_of_wellformed sprint sprintSlice l L keyvals hne heven
  rw [hlog]
  exact wroteTo_deliveredTo l.log (recordOf L data) c

/-- C1, as stated, fails for the console sink: with `LOG_STDOUT_OFF` set the
global minimum is Debug and an Error record is at or above it, yet the record
is written by the two file cores only, not by the console core. -/
theorem console_not_reached_when_stdout_off :
    getLogLevel asciiOnlyToUpper stdoutOffEnv = Level.LevelDebug.zapLevel ∧
    Level.LevelDebug.rank ≤ Level.LevelError.rank ∧
    ¬ wroteTo (ZapLogger.Log (fun s : String => s) sprintStrings (NewLogger asciiOnlyToUpper stdoutOffEnv "")
        Level.LevelError ["k", "v"]).writes
      (coreConsole encoderConfig (getLogLevel asciiOnlyToUpper stdoutOffEnv)) ∧
    (ZapLogger.Log (fun s : String => s) sprintStrings (NewLogger asciiOnlyToUpper stdoutOffEnv "")
        Level.LevelError ["k", "v"]).writes.map (fun w => w.1.out) =
      [zapcore.WriteSyncer.File (getLogWriter Level.LevelInfo ""),
       zapcore.WriteSyncer.File (getLogWriter Level.LevelError "")] := by
  refine ⟨by decide, by decide, ?_, by decide⟩
  rintro ⟨ent, h⟩
  have h2 : zapcore.WriteSyncer.Stdout ∈
      (ZapLogger.Log (fun s : String => s) sprintStrings (NewLogger asciiOnlyToUpper stdoutOffEnv "")
        Level.LevelError ["k", "v"]).writes.map (fun w => w.1.out) :=
    List.mem_map.mpr ⟨_, h, rfl⟩
  exact absurd h2 (by decide)

/-- C1, amended: with `M` the global minimum returned by `getLogLevel`, a
record logged at severity `L` reaches the primary file sink iff `L >= M`,
reaches the console sink iff `L >= M` and `LOG_STDOUT_OFF` is empty, and
reaches the error file sink iff `L >= Error`, whatever `M` is. -/
theorem sink_routing {α : Type} (sprint : α → String) (sprintSlice : List α → String) (u : Char → Char) (env : Environ)
    (logPath : String) (keyvals : List α) (hne : keyvals ≠ [])
    (heven : keyvals.length % 2 = 0) :
    ∃ M : Level, M.zapLevel = getLogLevel u env ∧ ∀ L : Level,
      (wroteTo (ZapLogger.Log sprint sprintSlice (NewLogger u env logPath) L keyvals).writes
          (coreFile encoderConfig (getLogLevel u env) logPath) ↔ M.rank ≤ L.rank) ∧
      (wroteTo (ZapLogger.Log sprint sprintSlice (NewLogger u env logPath) L keyvals).writes
          (coreConsole encoderConfig (getLogLevel u env)) ↔
        (env "LOG_STDOUT_OFF" = "" ∧ M.rank ≤ L.rank)) ∧
      (wroteTo (ZapLogger.Log sprint sprintSlice (NewLogger u env logPath) L keyvals).writes
          (coreErr encoderConfig logPath) ↔ Level.LevelError.rank ≤ L.rank) := by
  obtain ⟨M, hM, -⟩ := getLogLevel_severity u env
  refine ⟨M, hM, fun L => ⟨?_, ?_, ?_⟩⟩
  · rw [wroteTo_Log_wellformed sprint sprintSlice _ L keyvals hne heven, ← enabled_zapLevel, hM]
    exact ⟨fun h => h.2, fun h => ⟨coreFile_mem env _ _ _, h⟩⟩
  · rw [wroteTo_Log_wellformed sprint sprintSlice _ L keyvals hne heven, ← enabled_zapLevel, hM]
    unfold NewLogger
    rw [coreConsole_mem]
    rfl
  · rw [wroteTo_Log_wellformed sprint sprintSlice _ L keyvals hne heven, ← enabled_zapLevel]
    exact ⟨fun h => h.2, fun h => ⟨coreErr_mem env _ _ _, h⟩⟩

/-- C1 at a concrete configuration: `LOG_LEVEL=warn` and the directory
`/var/log`. -/
theorem sink_routing_witness :
    ∃ M : Level, M.zapLevel = getLogLevel asciiOnlyToUpper (logLevelEnv "warn") ∧ ∀ L : Level,
      (wroteTo (ZapLogger.Log (fun s : String => s) sprintStrings
          (NewLogger asciiOnlyToUpper (logLevelEnv "warn") "/var/log") L ["k", "v"]).writes
          (coreFile encoderConfig (getLogLevel asciiOnlyToUpper (logLevelEnv "warn"))
            "/var/log") ↔ M.rank ≤ L.rank) ∧
      (wroteTo (ZapLogger.Log (fun s : String => s) sprintStrings
          (NewLogger asciiOnlyToUpper (logLevelEnv "warn") "/var/log") L ["k", "v"]).writes
          (coreConsole encoderConfig (getLogLevel asciiOnlyToUpper (logLevelEnv "warn"))) ↔
        (logLevelEnv "warn" "LOG_STDOUT_OFF" = "" ∧ M.rank ≤ L.rank)) ∧
      (wroteTo (ZapLogger.Log (fun s : String => s) sprintStrings
          (NewLogger asciiOnlyToUpper (logLevelEnv "warn") "/var/log") L ["k", "v"]).writes
          (coreErr encoderConfig "/var/log") ↔ Level.LevelError.rank ≤ L.rank) :=
  sink_routing (fun s : String => s) sprintStrings asciiOnlyToUpper (logLevelEnv "warn") "/var/log"
    ["k", "v"] (by decide) (by decide)

/-- C10: the threshold returned by `getLogLevel` is never above Error, so a
record that reaches the error file sink also reaches the primary file sink;
with `LOG_LEVEL=ERROR`, Debug, Info and Warn records reach neither file and
Error and Fatal records reach both. -/
theorem error_sink_within_primary {α : Type} (sprint : α → String) (sprintSlice : List α → String) (u : Char → Char)
    (env : Environ) (logPath : String) (L : Level) (keyvals : List α) (hne : keyvals ≠ [])
    (heven : keyvals.length % 2 = 0) :
    (getLogLevel u env).toInt ≤ zapcore.Level.ErrorLevel.toInt ∧
    (wroteTo (ZapLogger.Log sprint sprintSlice (NewLogger u env logPath) L keyvals).writes
        (coreErr encoderConfig logPath) →
      wroteTo (ZapLogger.Log sprint sprintSlice (NewLogger u env logPath) L keyvals).writes
        (coreFile encoderConfig (getLogLevel u env) logPath)) ∧
    (env "LOG_LEVEL" = "ERROR" →
      (L.rank < Level.LevelError.rank →
        ¬ wroteTo (ZapLogger.Log sprint sprintSlice (NewLogger u env logPath) L keyvals).writes
            (coreFile encoderConfig (getLogLevel u env) logPath) ∧
        ¬ wroteTo (ZapLogger.Log sprint sprintSlice (NewLogger u env logPath) L keyvals).writes
            (coreErr encoderConfig logPath)) ∧
      (Level.LevelError.rank ≤ L.rank →
        wroteTo (ZapLogger.Log sprint sprintSlice (NewLogger u env logPath) L keyvals).writes
            (coreFile encoderConfig (getLogLevel u env) logPath) ∧
        wroteTo (ZapLogger.Log sprint sprintSlice (NewLogger u env logPath) L keyvals).writes
            (coreErr encoderConfig logPath))) := by
  obtain ⟨M, hM, hle⟩ := getLogLevel_severity u env
  have hfile : wroteTo (ZapLogger.Log sprint sprintSlice (NewLogger u env logPath) L keyvals).writes
      (coreFile encoderConfig (getLogLevel u env) logPath) ↔ M.rank ≤ L.rank := by
    rw [wroteTo_Log_wellformed sprint sprintSlice _ L keyvals hne heven, ← enabled_zapLevel, hM]
    exact ⟨fun h => h.2, fun h => ⟨coreFile_mem env _ _ _, h⟩⟩
  have herr : wroteTo (ZapLogger.Log sprint sprintSlice (NewLogger u env logPath) L keyvals).writes
      (coreErr encoderConfig logPath) ↔ Level.LevelError.rank ≤ L.rank := by
    rw [wroteTo_Log_wellformed sprint sprintSlice _ L keyvals hne heven, ← enabled_zapLevel]
    exact ⟨fun h => h.2, fun h => ⟨coreErr_mem env _ _ _, h⟩⟩
  refine ⟨?_, ?_, ?_⟩
  · rw [← hM]
    cases M <;> first | decide | exact absurd hle (by decide)
  · rw [hfile, herr]
    exact fun h => le_trans hle h
  · intro hE
    have hlev : getLogLevel u env = zapcore.Level.ErrorLevel := by
      simp [getLogLevel, hE, stringsToUpper_ERROR]
    have hME : M = Level.LevelError := by
      rw [hlev] at hM
      cases M <;> first | rfl | exact absurd hM (by decide)
    subst hME
    rw [hfile, herr]
    exact ⟨fun h => ⟨by omega, by omega⟩, fun h => ⟨h, h⟩⟩

/-- C10 at a concrete configuration: with `LOG_LEVEL=ERROR` a Warn record
reaches neither file. -/
theorem error_sink_within_primary_witness :
    (getLogLevel asciiOnlyToUpper (logLevelEnv "ERROR")).toInt ≤
      zapcore.Level.ErrorLevel.toInt ∧
    ¬ wroteTo (ZapLogger.Log (fun s : String => s) sprintStrings
        (NewLogger asciiOnlyToUpper (logLevelEnv "ERROR") "") Level.LevelWarn ["k", "v"]).writes
        (coreFile encoderConfig (getLogLevel asciiOnlyToUpper (logLevelEnv "ERROR")) "") ∧
    ¬ wroteTo (ZapLogger.Log (fun s : String => s) sprintStrings
        (NewLogger asciiOnlyToUpper (logLevelEnv "ERROR") "") Level.LevelWarn ["k", "v"]).writes
        (coreErr encoderConfig "") :=
  ⟨(error_sink_within_primary (fun s : String => s) sprintStrings asciiOnlyToUpper (logLevelEnv "ERROR") ""
      Level.LevelWarn ["k", "v"] (by decide) (by decide)).1,
   ((error_sink_within_primary (fun s : String => s) sprintStrings asciiOnlyToUpper (logLevelEnv "ERROR") ""
      Level.LevelWarn ["k", "v"] (by decide) (by decide)).2.2 (by decide)).1 (by decide)⟩

/-! ## The console switch -/

theorem deliveredTo_filter_out {α : Type} (cores : List zapcore.Core) (ent : zapcore.Entry α)
    (p : zapcore.Core → Bool) :
    deliveredTo { cores := cores.filter p } ent =
      (deliveredTo { cores := cores } ent).filter (fun w => p w.1) := by
  unfold deliveredTo
  induction cores with
  | nil => rfl
  | cons c cs ih =>
    by_cases hp : p c = true <;> by_cases he : c.Enabled ent.Level = true <;>
      simp_all [List.filter_cons]

theorem Log_writes_filter {α : Type} (sprint : α → String) (sprintSlice : List α → String) (cores : List zapcore.Core)
    (p : zapcore.Core → Bool) (level : Level) (keyvals : List α) :
    (ZapLogger.Log sprint sprintSlice { log := { cores := cores.filter p } } level keyvals).writes =
      (ZapLogger.Log sprint sprintSlice { log := { cores := cores } } level keyvals).writes.filter
        (fun w => p w.1) ∧
    (ZapLogger.Log sprint sprintSlice { log := { cores := cores.filter p } } level keyvals).outcome =
      (ZapLogger.Log sprint sprintSlice { log := { cores := cores } } level keyvals).outcome := by
  by_cases hw : keyvals ≠ [] ∧ keyvals.length % 2 = 0
  · obtain ⟨data, hd, hlog⟩ := Log_of_wellformed sprint sprintSlice
      { log := { cores := cores.filter p } } level keyvals hw.1 hw.2
    obtain ⟨data1, hd1, hlog1⟩ := Log_of_wellformed sprint sprintSlice
      { log := { cores := cores } } level keyvals hw.1 hw.2
    have : data1 = data := Option.some.inj (hd1.symm.trans hd)
    subst this
    rw [hlog, hlog1]
    exact ⟨deliveredTo_filter_out cores _ p, rfl⟩
  · have hm : keyvals = [] ∨ keyvals.length % 2 = 1 := by
      by_cases he : keyvals = []
      · exact Or.inl he
      · right
        have h2 : ¬ keyvals.length % 2 = 0 := fun h => hw ⟨he, h⟩
        omega
    rw [Log_of_malformed sprint sprintSlice _ level keyvals hm, Log_of_malformed sprint sprintSlice _ level keyvals hm]
    exact ⟨deliveredTo_filter_out cores _ p, rfl⟩

theorem getLogLevel_stdoutOn (u : Char → Char) (env : Environ) :
    getLogLevel u (stdoutOn env) = getLogLevel u env := by
  have : stdoutOn env "LOG_LEVEL" = env "LOG_LEVEL" := by
    unfold stdoutOn
    rw [if_neg (by decide)]
  unfold getLogLevel
  rw [this]

theorem NewLogger_stdout_off (u : Char → Char) (env : Environ) (logPath : String)
    (h : env "LOG_STDOUT_OFF" ≠ "") :
    NewLogger u env logPath =
      ZapLogger.mk (zap.Logger.mk (List.filter
        (fun c => decide (c.out ≠ zapcore.WriteSyncer.Stdout))
        (NewLogger u (stdoutOn env) logPath).log.cores)) := by
  have hon : stdoutOn env "LOG_STDOUT_OFF" = "" := by simp [stdoutOn]
  unfold NewLogger
  rw [getLogLevel_stdoutOn]
  unfold NewZapLogger
  rw [if_pos h, if_neg (by simp [hon])]
  simp [coreConsole, coreFile, coreErr, List.filter_cons]

theorem wroteTo_coreFile_iff {α : Type} (sprint : α → String) (sprintSlice : List α → String)
    (u : Char → Char) (env : Environ) (logPath : String) (L : Level) (keyvals : List α)
    (hne : keyvals ≠ []) (heven : keyvals.length % 2 = 0) :
    wroteTo (ZapLogger.Log sprint sprintSlice (NewLogger u env logPath) L keyvals).writes
        (coreFile encoderConfig (getLogLevel u env) logPath) ↔
      (getLogLevel u env).Enabled L.zapLevel = true := by
  rw [wroteTo_Log_wellformed sprint sprintSlice _ L keyvals hne heven]
  exact ⟨fun h => h.2, fun h => ⟨coreFile_mem env _ _ _, h⟩⟩

theorem wroteTo_coreErr_iff {α : Type} (sprint : α → String) (sprintSlice : List α → String)
    (u : Char → Char) (env : Environ) (logPath : String) (L : Level) (keyvals : List α)
    (hne : keyvals ≠ []) (heven : keyvals.length % 2 = 0) :
    wroteTo (ZapLogger.Log sprint sprintSlice (NewLogger u env logPath) L keyvals).writes
        (coreErr encoderConfig logPath) ↔
      Level.LevelError.rank ≤ L.rank := by
  rw [wroteTo_Log_wellformed sprint sprintSlice _ L keyvals hne heven, ← enabled_zapLevel]
  exact ⟨fun h => h.2, fun h => ⟨coreErr_mem env _ _ _, h⟩⟩

/-- C6: with `LOG_STDOUT_OFF` non-empty the tee of the logger is the primary
file core and the error file core, without a console core; no `Log` call
writes to standard output; a record at severity `L` is written by the primary
file core iff `L` is at or above the global minimum and by the error file
core iff `L` is at or above Error, which is when they write it with the
console enabled, and all the writes and the outcome are those of the logger
with the console enabled, less its writes to standard output. With
`LOG_STDOUT_OFF` empty the tee is the console core, on standard output,
followed by the two file cores. -/
theorem stdout_switch {α : Type} (sprint : α → String) (sprintSlice : List α → String)
    (u : Char → Char) (env : Environ) (logPath : String) :
    (env "LOG_STDOUT_OFF" ≠ "" →
      (NewLogger u env logPath).log.cores =
        [coreFile encoderConfig (getLogLevel u env) logPath, coreErr encoderConfig logPath] ∧
      (∀ c ∈ (NewLogger u env logPath).log.cores, c.out ≠ zapcore.WriteSyncer.Stdout) ∧
      (∀ (level : Level) (keyvals : List α),
        (∀ w ∈ (ZapLogger.Log sprint sprintSlice (NewLogger u env logPath) level keyvals).writes,
          w.1.out ≠ zapcore.WriteSyncer.Stdout) ∧
        (ZapLogger.Log sprint sprintSlice (NewLogger u env logPath) level keyvals).writes =
          (ZapLogger.Log sprint sprintSlice (NewLogger u (stdoutOn env) logPath)
            level keyvals).writes.filter
            (fun w => decide (w.1.out ≠ zapcore.WriteSyncer.Stdout)) ∧
        (ZapLogger.Log sprint sprintSlice (NewLogger u env logPath) level keyvals).outcome =
          (ZapLogger.Log sprint sprintSlice (NewLogger u (stdoutOn env) logPath)
            level keyvals).outcome) ∧
      ∃ M : Level, M.zapLevel = getLogLevel u env ∧
        ∀ (L : Level) (keyvals : List α), keyvals ≠ [] → keyvals.length % 2 = 0 →
          (wroteTo (ZapLogger.Log sprint sprintSlice (NewLogger u env logPath) L keyvals).writes
              (coreFile encoderConfig (getLogLevel u env) logPath) ↔ M.rank ≤ L.rank) ∧
          (wroteTo (ZapLogger.Log sprint sprintSlice (NewLogger u env logPath) L keyvals).writes
              (coreErr encoderConfig logPath) ↔ Level.LevelError.rank ≤ L.rank) ∧
          (wroteTo (ZapLogger.Log sprint sprintSlice (NewLogger u env logPath) L keyvals).writes
              (coreFile encoderConfig (getLogLevel u env) logPath) ↔
            wroteTo (ZapLogger.Log sprint sprintSlice (NewLogger u (stdoutOn env) logPath)
              L keyvals).writes (coreFile encoderConfig (getLogLevel u env) logPath)) ∧
          (wroteTo (ZapLogger.Log sprint sprintSlice (NewLogger u env logPath) L keyvals).writes
              (coreErr encoderConfig logPath) ↔
            wroteTo (ZapLogger.Log sprint sprintSlice (NewLogger u (stdoutOn env) logPath)
              L keyvals).writes (coreErr encoderConfig logPath))) ∧
    (env "LOG_STDOUT_OFF" = "" →
      (NewLogger u env logPath).log.cores =
        [coreConsole encoderConfig (getLogLevel u env),
         coreFile encoderConfig (getLogLevel u env) logPath, coreErr encoderConfig logPath] ∧
      coreConsole encoderConfig (getLogLevel u env) ∈ (NewLogger u env logPath).log.cores ∧
      (coreConsole encoderConfig (getLogLevel u env)).out = zapcore.WriteSyncer.Stdout) := by
  constructor
  · intro h
    have hfil := fun (level : Level) (keyvals : List α) =>
      Log_writes_filter sprint sprintSlice (NewLogger u (stdoutOn env) logPath).log.cores
        (fun c => decide (c.out ≠ zapcore.WriteSyncer.Stdout)) level keyvals
    rw [← NewLogger_stdout_off u env logPath h] at hfil
    obtain ⟨M, hM, -⟩ := getLogLevel_severity u env
    refine ⟨?_, ?_, fun level keyvals => ⟨?_, (hfil level keyvals).1, (hfil level keyvals).2⟩,
      M, hM, fun L keyvals hne heven => ?_⟩
    · unfold NewLogger NewZapLogger
      rw [if_pos h]
    · intro c hc
      rw [NewLogger_stdout_off u env logPath h] at hc
      simpa using (List.mem_filter.mp hc).2
    · intro w hw
      rw [(hfil level keyvals).1] at hw
      simpa using (List.mem_filter.mp hw).2
    · have hfOff := wroteTo_coreFile_iff sprint sprintSlice u env logPath L keyvals hne heven
      have heOff := wroteTo_coreErr_iff sprint sprintSlice u env logPath L keyvals hne heven
      have hfOn := wroteTo_coreFile_iff sprint sprintSlice u (stdoutOn env) logPath L keyvals
        hne heven
      have heOn := wroteTo_coreErr_iff sprint sprintSlice u (stdoutOn env) logPath L keyvals
        hne heven
      rw [getLogLevel_stdoutOn] at hfOn
      refine ⟨?_, heOff, hfOff.trans hfOn.symm, heOff.trans heOn.symm⟩
      rw [hfOff, ← enabled_zapLevel, hM]
  · intro h
    refine ⟨?_, (coreConsole_mem env _ _ _).mpr h, rfl⟩
    unfold NewLogger NewZapLogger
    rw [if_neg (by simp [h])]

/-- C6 at two concrete environments: with `LOG_STDOUT_OFF=1` an Error record
is written by both file cores and by nothing on standard output; with no
variable set the console core is in the tee. -/
theorem stdout_switch_witness :
    (NewLogger asciiOnlyToUpper stdoutOffEnv "").log.cores =
      [coreFile encoderConfig (getLogLevel asciiOnlyToUpper stdoutOffEnv) "",
       coreErr encoderConfig ""] ∧
    (∀ w ∈ (ZapLogger.Log (fun s : String => s) sprintStrings
        (NewLogger asciiOnlyToUpper stdoutOffEnv "") Level.LevelError ["k", "v"]).writes,
      w.1.out ≠ zapcore.WriteSyncer.Stdout) ∧
    wroteTo (ZapLogger.Log (fun s : String => s) sprintStrings
        (NewLogger asciiOnlyToUpper stdoutOffEnv "") Level.LevelError ["k", "v"]).writes
      (coreFile encoderConfig (getLogLevel asciiOnlyToUpper stdoutOffEnv) "") ∧
    wroteTo (ZapLogger.Log (fun s : String => s) sprintStrings
        (NewLogger asciiOnlyToUpper stdoutOffEnv "") Level.LevelError ["k", "v"]).writes
      (coreErr encoderConfig "") ∧
    coreConsole encoderConfig (getLogLevel asciiOnlyToUpper emptyEnv) ∈
      (NewLogger asciiOnlyToUpper emptyEnv "").log.cores := by
  obtain ⟨hc, -, hall, M, hM, hw⟩ :=
    (stdout_switch (fun s : String => s) sprintStrings asciiOnlyToUpper stdoutOffEnv "").1
      (by decide)
  have hMd : M = Level.LevelDebug := by
    cases M <;> first | rfl | exact absurd hM (by decide)
  subst hMd
  obtain ⟨hf, he, -, -⟩ := hw Level.LevelError ["k", "v"] (by decide) (by decide)
  exact ⟨hc, (hall _ _).1, hf.mpr (by decide), he.mpr (by decide),
    ((stdout_switch (fun s : String => s) sprintStrings asciiOnlyToUpper emptyEnv "").2
      (by decide)).2.1⟩

/-! ## One-shot customisation -/

theorem CustomDefaultLogger_of_once (u : Char → Char) (env : Environ)
    (logPath id appName version module : String) (g : Globals) (h : g.once = true) :
    CustomDefaultLogger u env logPath id appName version module g = g := by
  unfold CustomDefaultLogger
  rw [if_pos h]

/-- C5: starting from the package initialisation, a first call of
`CustomDefaultLogger` followed by a second one with any other arguments leaves
the identity fields `service.id`, `app_name`, `service.version` and `module`
of `DefaultLogger` at the values of the first call, and any invocation after a
first one leaves the package variables unchanged. -/
theorem CustomDefaultLogger_once (u : Char → Char) (env0 env1 env2 : Environ)
    (logPath1 id1 appName1 version1 module1 logPath2 id2 appName2 version2 module2 : String) :
    (CustomDefaultLogger u env2 logPath2 id2 appName2 version2 module2
        (CustomDefaultLogger u env1 logPath1 id1 appName1 version1 module1
          (initGlobals u env0))).DefaultLogger.field "service.id" =
      some (ContextValue.str id1) ∧
    (CustomDefaultLogger u env2 logPath2 id2 appName2 version2 module2
        (CustomDefaultLogger u env1 logPath1 id1 appName1 version1 module1
          (initGlobals u env0))).DefaultLogger.field "app_name" =
      some (ContextValue.str appName1) ∧
    (CustomDefaultLogger u env2 logPath2 id2 appName2 version2 module2
        (CustomDefaultLogger u env1 logPath1 id1 appName1 version1 module1
          (initGlobals u env0))).DefaultLogger.field "service.version" =
      some (ContextValue.str version1) ∧
    (CustomDefaultLogger u env2 logPath2 id2 appName2 version2 module2
        (CustomDefaultLogger u env1 logPath1 id1 appName1 version1 module1
          (initGlobals u env0))).DefaultLogger.field "module" =
      some (ContextValue.str module1) ∧
    (CustomDefaultLogger u env2 logPath2 id2 appName2 version2 module2
        (CustomDefaultLogger u env1 logPath1 id1 appName1 version1 module1
          (initGlobals u env0))).DefaultLogger.logger = NewLogger u env1 logPath1 ∧
    ∀ g : Globals,
      CustomDefaultLogger u env2 logPath2 id2 appName2 version2 module2
          (CustomDefaultLogger u env1 logPath1 id1 appName1 version1 module1 g) =
        CustomDefaultLogger u env1 logPath1 id1 appName1 version1 module1 g := by
  have hstep : ∀ g : Globals,
      (CustomDefaultLogger u env1 logPath1 id1 appName1 version1 module1 g).once = true := by
    intro g
    unfold CustomDefaultLogger
    split_ifs with h
    · exact h
    · rfl
  have hnoop : ∀ g : Globals,
      CustomDefaultLogger u env2 logPath2 id2 appName2 version2 module2
          (CustomDefaultLogger u env1 logPath1 id1 appName1 version1 module1 g) =
        CustomDefaultLogger u env1 logPath1 id1 appName1 version1 module1 g := by
    intro g
    exact CustomDefaultLogger_of_once u env2 logPath2 id2 appName2 version2 module2 _ (hstep g)
  have hfirst : CustomDefaultLogger u env1 logPath1 id1 appName1 version1 module1
      (initGlobals u env0) =
      { DefaultLogger := NewHelperWith (NewLogger u env1 logPath1)
          [("timestamp", ContextValue.DefaultTimestamp),
           ("caller", ContextValue.DefaultCaller),
           ("service.id", ContextValue.str id1),
           ("app_name", ContextValue.str appName1),
           ("service.version", ContextValue.str version1),
           ("module", ContextValue.str module1)]
        once := true } := rfl
  rw [hnoop, hfirst]
  refine ⟨?_, ?_, ?_, ?_, rfl, hnoop⟩ <;>
    simp [Helper.field, NewHelperWith, List.find?]

/-! ## File layout -/

theorem splitSlash_ne_nil (l : List Char) : splitSlash l ≠ [] := by
  cases l with
  | nil => simp [splitSlash]
  | cons c cs =>
    unfold splitSlash
    split_ifs
    · simp
    · split <;> simp

theorem splitSlash_cons (c : Char) (cs : List Char) :
    splitSlash (c :: cs) =
      if c = Char.ofNat 47 then [] :: splitSlash cs
      else
        match splitSlash cs with
        | [] => [[c]]
        | h :: t => (c :: h) :: t := rfl

theorem splitSlash_append_slash (a b : List Char) :
    splitSlash (a ++ Char.ofNat 47 :: b) = splitSlash a ++ splitSlash b := by
  induction a with
  | nil => simp [splitSlash]
  | cons c cs ih =>
    by_cases hc : c = Char.ofNat 47
    · simp [splitSlash, hc, ih]
    · have hne := splitSlash_ne_nil cs
      rw [List.cons_append, splitSlash_cons, splitSlash_cons c cs, if_neg hc, if_neg hc, ih]
      cases hs : splitSlash cs with
      | nil => exact absurd hs hne
      | cons h t => simp

theorem splitSlash_noSlash (f : List Char) (h : Char.ofNat 47 ∉ f) : splitSlash f = [f] := by
  induction f with
  | nil => rfl
  | cons c cs ih =>
    have hc : c ≠ Char.ofNat 47 := fun e => h (by simp [e])
    have hcs : Char.ofNat 47 ∉ cs := fun e => h (List.mem_cons_of_mem _ e)
    unfold splitSlash
    rw [if_neg hc, ih hcs]

theorem intercalate_go_append (acc s : String) (ys : List String) (f : String) :
    String.intercalate.go acc s (ys ++ [f]) = String.intercalate.go acc s ys ++ s ++ f := by
  induction ys generalizing acc with
  | nil => simp [String.intercalate.go]
  | cons y ys ih => simp [String.intercalate.go, ih]

theorem intercalate_append_singleton (s : String) (ys : List String) (f : String) :
    String.intercalate s (ys ++ [f]) =
      (if ys = [] then "" else String.intercalate s ys ++ s) ++ f := by
  cases ys with
  | nil => simp [String.intercalate, String.intercalate.go]
  | cons y ys =>
    simp [String.intercalate, intercalate_go_append]

theorem pathJoin_name (d : String) (hd : d ≠ "") :
    ∃ P : String, ∀ f : String, f.data ≠ [] → f.data ≠ ".".data → f.data ≠ "..".data →
      Char.ofNat 47 ∉ f.data → pathJoin d f = P ++ f := by
  let rooted : Bool := decide (d.data.head? = some (Char.ofNat 47))
  let kept := (splitSlash d.data).foldl (cleanStep rooted) []
  let ys := kept.reverse.map String.mk
  refine ⟨(if d.data.head? = some (Char.ofNat 47) then "/" else "") ++
    (if ys = [] then "" else String.intercalate "/" ys ++ "/"), ?_⟩
  intro f h1 h2 h3 h4
  have hdata : (d ++ "/" ++ f).data = d.data ++ Char.ofNat 47 :: f.data := by
    simp [String.data_append]
  have hflen : 0 < f.length := List.length_pos.mpr h1
  have hp : d ++ "/" ++ f ≠ "" := by
    intro h
    have := congrArg String.length h
    simp [String.length_append] at this
    omega
  have hdne : d.data ≠ [] := fun h => hd (String.ext h)
  have hhead : (d.data ++ Char.ofNat 47 :: f.data).head? = d.data.head? := by
    cases hdd : d.data with
    | nil => exact absurd hdd hdne
    | cons c cs => rfl
  have hstep : cleanStep rooted kept f.data = f.data :: kept := by
    unfold cleanStep
    rw [if_neg (by simp [h1, h2]), if_neg h3]
  have hbody : String.intercalate "/" ((f.data :: kept).reverse.map String.mk) =
      (if ys = [] then "" else String.intercalate "/" ys ++ "/") ++ f := by
    rw [List.reverse_cons, List.map_append]
    exact intercalate_append_singleton "/" ys f
  have hne2 : ∀ A : String, A ++ f ≠ "" := by
    intro A h
    have := congrArg String.length h
    simp [String.length_append] at this
    omega
  unfold pathJoin
  rw [if_neg (fun h => hd h.1), if_neg hd]
  unfold pathClean
  rw [if_neg hp]
  simp only [hdata, hhead, splitSlash_append_slash, splitSlash_noSlash _ h4, List.foldl_append,
    List.foldl_cons, List.foldl_nil]
  change (if ((if d.data.head? = some (Char.ofNat 47) then "/" else "") ++
      String.intercalate "/" ((cleanStep rooted kept f.data).reverse.map String.mk)) = ""
    then "." else ((if d.data.head? = some (Char.ofNat 47) then "/" else "") ++
      String.intercalate "/" ((cleanStep rooted kept f.data).reverse.map String.mk))) = _
  rw [hstep, hbody, ← String.append_assoc, if_neg (hne2 _)]

theorem getLogWriter_Filename (level : Level) (logPath : String) :
    (getLogWriter level logPath).Filename =
      pathJoin (if logPath = "" then "./logs/" else logPath)
        (if level = Level.LevelError then "log_json_err.log" else "log_json.log") := by
  unfold getLogWriter
  by_cases hp : logPath = "" <;> by_cases hl : level = Level.LevelError <;>
    simp only [hp, hl, ne_eq, not_true_eq_false, not_false_eq_true, if_true, if_false] <;> rfl

theorem logDir_stem (logPath : String) :
    ∃ P : String,
      pathJoin (if logPath = "" then "./logs/" else logPath) "log_json.log" =
        P ++ "log_json.log" ∧
      pathJoin (if logPath = "" then "./logs/" else logPath) "log_json_err.log" =
        P ++ "log_json_err.log" := by
  have hd : (if logPath = "" then "./logs/" else logPath) ≠ "" := by
    split_ifs with h
    · decide
    · exact h
  obtain ⟨P, hP⟩ := pathJoin_name _ hd
  exact ⟨P, hP _ (by decide) (by decide) (by decide) (by decide),
    hP _ (by decide) (by decide) (by decide) (by decide)⟩

theorem logFiles_distinct (logPath : String) :
    pathJoin (if logPath = "" then "./logs/" else logPath) "log_json.log" ≠
      pathJoin (if logPath = "" then "./logs/" else logPath) "log_json_err.log" := by
  obtain ⟨P, h1, h2⟩ := logDir_stem logPath
  rw [h1, h2]
  intro h
  have := congrArg String.length h
  simp only [String.length_append] at this
  have e1 : ("log_json.log" : String).length = 12 := by decide
  have e2 : ("log_json_err.log" : String).length = 16 := by decide
  omega

/-- C8, as stated, fails on "info-and-above": with no `LOG_LEVEL` set a Debug
record, below Info, is written by the core of the primary file
`logs/log_json.log`. -/
theorem debug_record_in_primary_file :
    (getLogWriter Level.LevelInfo "").Filename = "logs/log_json.log" ∧
    Level.LevelDebug.rank < Level.LevelInfo.rank ∧
    (ZapLogger.Log (fun s : String => s) sprintStrings (NewLogger asciiOnlyToUpper emptyEnv "")
        Level.LevelDebug ["k", "v"]).writes.map (fun w => (w.1.out, w.2.Level)) =
      [(zapcore.WriteSyncer.Stdout, zapcore.Level.DebugLevel),
       (zapcore.WriteSyncer.File (getLogWriter Level.LevelInfo ""),
        zapcore.Level.DebugLevel)] := by
  decide

/-- C8, amended: the two files are `log_json.log` and `log_json_err.log` in
the directory `logPath`, or `./logs/` when `logPath` is empty; `getLogWriter`
targets the error file exactly when the level is Error and the primary file
for every other level; the primary file receives the records at or above the
global minimum (Debug records too when the minimum is Debug) and the error
file the records at or above Error. -/
theorem file_layout {α : Type} (sprint : α → String) (sprintSlice : List α → String) (u : Char → Char) (env : Environ)
    (logPath : String) (level L : Level) (keyvals : List α) (hne : keyvals ≠ [])
    (heven : keyvals.length % 2 = 0) :
    ((getLogWriter level logPath).Filename =
        pathJoin (if logPath = "" then "./logs/" else logPath) "log_json_err.log" ↔
      level = Level.LevelError) ∧
    ((getLogWriter level logPath).Filename =
        pathJoin (if logPath = "" then "./logs/" else logPath) "log_json.log" ↔
      level ≠ Level.LevelError) ∧
    (∃ P : String,
      (getLogWriter Level.LevelInfo logPath).Filename = P ++ "log_json.log" ∧
      (getLogWriter Level.LevelError logPath).Filename = P ++ "log_json_err.log") ∧
    (coreFile encoderConfig (getLogLevel u env) logPath).out =
      zapcore.WriteSyncer.File (getLogWriter Level.LevelInfo logPath) ∧
    (coreErr encoderConfig logPath).out =
      zapcore.WriteSyncer.File (getLogWriter Level.LevelError logPath) ∧
    ∃ M : Level, M.zapLevel = getLogLevel u env ∧
      (wroteTo (ZapLogger.Log sprint sprintSlice (NewLogger u env logPath) L keyvals).writes
          (coreFile encoderConfig (getLogLevel u env) logPath) ↔ M.rank ≤ L.rank) ∧
      (wroteTo (ZapLogger.Log sprint sprintSlice (NewLogger u env logPath) L keyvals).writes
          (coreErr encoderConfig logPath) ↔ Level.LevelError.rank ≤ L.rank) := by
  have hdist := logFiles_distinct logPath
  refine ⟨?_, ?_, ?_, rfl, rfl, ?_⟩
  · rw [getLogWriter_Filename]
    by_cases hl : level = Level.LevelError
    · simp [hl]
    · simp only [hl, if_false, iff_false]
      exact hdist
  · rw [getLogWriter_Filename]
    by_cases hl : level = Level.LevelError
    · simp only [hl, if_true, ne_eq, not_true_eq_false, iff_false]
      exact fun h => hdist h.symm
    · simp [hl]
  · obtain ⟨P, h1, h2⟩ := logDir_stem logPath
    refine ⟨P, ?_, ?_⟩
    · rw [getLogWriter_Filename]
      exact h1
    · rw [getLogWriter_Filename]
      exact h2
  · obtain ⟨M, hM, -⟩ := getLogLevel_severity u env
    refine ⟨M, hM, ?_, ?_⟩
    · rw [wroteTo_Log_wellformed sprint sprintSlice _ L keyvals hne heven, ← enabled_zapLevel, hM]
      exact ⟨fun h => h.2, fun h => ⟨coreFile_mem env _ _ _, h⟩⟩
    · rw [wroteTo_Log_wellformed sprint sprintSlice _ L keyvals hne heven, ← enabled_zapLevel]
      exact ⟨fun h => h.2, fun h => ⟨coreErr_mem env _ _ _, h⟩⟩

/-- C8 at a concrete configuration: the directory `/var/log`, the writer asked
for at Fatal, a Debug record. -/
theorem file_layout_witness :
    ((getLogWriter Level.LevelFatal "/var/log").Filename =
        pathJoin (if "/var/log" = "" then "./logs/" else "/var/log") "log_json_err.log" ↔
      Level.LevelFatal = Level.LevelError) ∧
    ((getLogWriter Level.LevelFatal "/var/log").Filename =
        pathJoin (if "/var/log" = "" then "./logs/" else "/var/log") "log_json.log" ↔
      Level.LevelFatal ≠ Level.LevelError) ∧
    (∃ P : String,
      (getLogWriter Level.LevelInfo "/var/log").Filename = P ++ "log_json.log" ∧
      (getLogWriter Level.LevelError "/var/log").Filename = P ++ "log_json_err.log") ∧
    (coreFile encoderConfig (getLogLevel asciiOnlyToUpper emptyEnv) "/var/log").out =
      zapcore.WriteSyncer.File (getLogWriter Level.LevelInfo "/var/log") ∧
    (coreErr encoderConfig "/var/log").out =
      zapcore.WriteSyncer.File (getLogWriter Level.LevelError "/var/log") ∧
    ∃ M : Level, M.zapLevel = getLogLevel asciiOnlyToUpper emptyEnv ∧
      (wroteTo (ZapLogger.Log (fun s : String => s) sprintStrings (NewLogger asciiOnlyToUpper emptyEnv "/var/log")
          Level.LevelDebug ["k", "v"]).writes
          (coreFile encoderConfig (getLogLevel asciiOnlyToUpper emptyEnv) "/var/log") ↔
        M.rank ≤ Level.LevelDebug.rank) ∧
      (wroteTo (ZapLogger.Log (fun s : String => s) sprintStrings (NewLogger asciiOnlyToUpper emptyEnv "/var/log")
          Level.LevelDebug ["k", "v"]).writes
          (coreErr encoderConfig "/var/log") ↔
        Level.LevelError.rank ≤ Level.LevelDebug.rank) :=
  file_layout (fun s : String => s) sprintStrings asciiOnlyToUpper emptyEnv "/var/log" Level.LevelFatal
    Level.LevelDebug ["k", "v"] (by decide) (by decide)

end PkgLog
